import Mathlib

/-!
Shallow embedding of the reconciliation core of the `sprovision_accounting`
repository.

Source files embedded:
* `reconciliation_parser.py` — the record model (`PaymentRemittance`,
  `BankTransaction`, `DriverScheduleEntry`, `ReconciliationData`).
* `reconciliation_engine.py` — the driver-identity matcher
  (`ReconciliationEngine.normalize_driver_name`, `.reconcile`,
  `._build_driver_summaries`, `._find_orphan_payments`).
* `reconcile_loads_payments.py` — the load-reference matcher
  (`reconcile_data` over `Load`/`Payment`/`Deposit`).

Modelling conventions:
* Python `datetime` values are modelled as integer day numbers (`ℤ`); the
  engine only compares dates and takes day differences.
* Python `Decimal` currency amounts are modelled as an integer number of
  cents (`ℤ`).  Every amount these programs parse has at most two decimal
  places, and `Decimal` arithmetic on such values is exact integer
  arithmetic on cents; the tolerance `abs(...) < Decimal('0.01')` becomes
  `iabs (...) < 1`.
* Python list positions stand in for object identity: the engine tracks
  consumed records by list index (`matched_bank_trans` is a set of indices
  in the source as well), and the load-reference script tracks matched
  deposits by object identity, which list position models faithfully
  because each parsed record is a fresh object.
* Python truthiness of an optional `Decimal` (`if not schedule_entry.amount`)
  is `false` for `None` *and* for a zero amount; `amtTruthy` mirrors this.
* Python `str.upper` is modelled per-character (`Char.toUpper`); all driver
  names and alias keys in scope are ASCII, where the two agree.
-/

/-- Integer absolute value, as Python `abs` on day differences and on
cent-valued `Decimal` differences. -/
def iabs (x : ℤ) : ℤ := if x < 0 then -x else x

/-- One invoice line of a remittance advice (`reconciliation_parser.py`).
The engine never reads invoice fields; they are carried for fidelity. -/
structure Invoice where
  invoice_num : String := ""
  invoice_date : String := ""
  invoice_amount : ℤ := 0
  amount_paid : ℤ := 0
  description : String := ""
  deriving DecidableEq, Repr

/-- `PaymentRemittance` from `reconciliation_parser.py`. -/
structure PaymentRemittance where
  payment_date : ℤ
  payment_reference : String := ""
  paper_document_number : String := ""
  payment_amount : ℤ
  invoices : List Invoice := []
  source_file : String := ""
  deriving DecidableEq, Repr

/-- `BankTransaction` from `reconciliation_parser.py`. -/
structure BankTransaction where
  transaction_date : ℤ
  amount : ℤ
  description : String := ""
  recipient : String
  transaction_type : String := ""
  source_file : String := ""
  deriving DecidableEq, Repr

instance : Inhabited BankTransaction :=
  ⟨{ transaction_date := 0, amount := 0, recipient := "" }⟩

/-- `DriverScheduleEntry` from `reconciliation_parser.py`. -/
structure DriverScheduleEntry where
  date : ℤ
  driver : String
  company : String := ""
  pickup : String := ""
  dropoff : String := ""
  load_number : String := ""
  amount : Option ℤ
  date_paid : Option ℤ := none
  notes : String := ""
  source_file : String := ""
  deriving DecidableEq, Repr

/-- `ReconciliationData` from `reconciliation_parser.py`: the three record
collections of one reconciliation run. -/
structure ReconciliationData where
  payment_remittances : List PaymentRemittance := []
  bank_transactions : List BankTransaction := []
  driver_schedules : List DriverScheduleEntry := []
  deriving DecidableEq, Repr

/-- The engine's driver-name alias table (`ReconciliationEngine.__init__`),
in its Python insertion order. -/
def driver_name_map : List (String × String) :=
  [("RICH-LITTLE", "Little Rich"),
   ("BIGRICH", "Rich"),
   ("BIG RICH", "Rich"),
   ("STEVEMARTIN", "Steve"),
   ("STEVE MARTIN", "Steve"),
   ("TONY", "Tony")]

/-- `name.upper().replace(' ', '').replace('-', '')` of the source. -/
def pyUpperStrip (s : String) : String :=
  ⟨(s.data.map Char.toUpper).filter (fun c => c != ' ' && c != '-')⟩

/-- `key.replace(' ', '').replace('-', '')` applied to an alias key. -/
def pyKeyStrip (s : String) : String :=
  ⟨s.data.filter (fun c => c != ' ' && c != '-')⟩

/-- `ReconciliationEngine.normalize_driver_name`: strip/uppercase the name,
return the alias value of the first matching key, else the name unchanged. -/
def normalize_driver_name (name : String) : String :=
  match driver_name_map.find? (fun kv => pyKeyStrip kv.1 == pyUpperStrip name) with
  | some kv => kv.2
  | none => name

/-- Python truthiness of the optional `Decimal` amount:
`None` and `0` are falsy. -/
def amtTruthy : Option ℤ → Bool
  | none => false
  | some a => a != 0

/-- `ReconciliationMatch` from `reconciliation_engine.py`.  `schedIdx` and
`txIdx` record the positions (in the sorted lists) of the two matched
records, modelling the object references the Python dataclass stores. -/
structure ReconciliationMatch where
  schedIdx : ℕ
  driver_entry : DriverScheduleEntry
  txIdx : ℕ
  bank_transaction : BankTransaction
  payment_remittance : Option PaymentRemittance := none
  match_type : String := "UNKNOWN"
  discrepancy : Option String := none
  amount_difference : ℤ := 0
  deriving DecidableEq, Repr

/-- Whether bank transaction `p` (an index/record pair) qualifies as a match
candidate for a schedule entry: not yet consumed, same normalized driver,
amount within one cent, day difference within the lookback window
(`reconcile`, lines 133–147). -/
def txQual (consumed : List ℕ) (drv : String) (samt : ℤ) (sdate lookback : ℤ)
    (p : ℕ × BankTransaction) : Prop :=
  p.1 ∉ consumed ∧ normalize_driver_name p.2.recipient = drv ∧
    iabs (p.2.amount - samt) < 1 ∧ iabs (p.2.transaction_date - sdate) ≤ lookback

instance (consumed : List ℕ) (drv : String) (samt : ℤ) (sdate lookback : ℤ)
    (p : ℕ × BankTransaction) : Decidable (txQual consumed drv samt sdate lookback p) := by
  unfold txQual; infer_instance

/-- `score = 100 - date_diff` (`reconcile`, line 148). -/
def txScore (sdate : ℤ) (p : ℕ × BankTransaction) : ℤ :=
  100 - iabs (p.2.transaction_date - sdate)

/-- The inner candidate scan of `reconcile` (lines 130–151): walk the
enumerated bank transactions keeping the best (index, score) seen so far;
a candidate replaces the accumulator only when its score strictly exceeds
the accumulated score (which starts at 0). -/
def scanTx (consumed : List ℕ) (drv : String) (samt : ℤ) (sdate lookback : ℤ) :
    List (ℕ × BankTransaction) → Option ℕ × ℤ → Option ℕ × ℤ
  | [], acc => acc
  | (i, t) :: rest, acc =>
    if i ∈ consumed then
      scanTx consumed drv samt sdate lookback rest acc
    else if normalize_driver_name t.recipient ≠ drv then
      scanTx consumed drv samt sdate lookback rest acc
    else if iabs (t.amount - samt) < 1 then
      if iabs (t.transaction_date - sdate) ≤ lookback then
        if 100 - iabs (t.transaction_date - sdate) > acc.2 then
          scanTx consumed drv samt sdate lookback rest
            (some i, 100 - iabs (t.transaction_date - sdate))
        else
          scanTx consumed drv samt sdate lookback rest acc
      else
        scanTx consumed drv samt sdate lookback rest acc
    else
      scanTx consumed drv samt sdate lookback rest acc

/-- The best-match selection for one schedule entry: the scan started with
`best_match = None, best_match_score = 0`. -/
def bestCandidate (consumed : List ℕ) (drv : String) (samt : ℤ) (sdate lookback : ℤ)
    (txs : List BankTransaction) : Option ℕ :=
  (scanTx consumed drv samt sdate lookback txs.enum (none, 0)).1

/-- `ReconciliationReport` from `reconciliation_engine.py` (the fields the
matcher fills; report/date metadata is omitted, and the driver-summary
mapping is the separate function `build_driver_summaries`). -/
structure ReconciliationReport where
  total_remittances_received : ℤ
  total_paid_to_drivers : ℤ
  total_scheduled_amount : ℤ
  full_matches : List ReconciliationMatch
  missing_bank_transactions : List (ℕ × DriverScheduleEntry)
  orphan_payments : List PaymentRemittance
  orphan_bank_transactions : List (ℕ × BankTransaction)
  deriving DecidableEq, Repr

/-- The schedule-matching loop of `reconcile` (lines 120–164) over the
enumerated, date-sorted schedule entries: entries with a falsy amount are
skipped; otherwise the best candidate either yields a FULL match (and
consumes the transaction index) or the entry is recorded as missing a bank
transaction.  Returns (full matches, missing entries, consumed indices). -/
def processSchedules (lookback : ℤ) (txs : List BankTransaction) (consumed : List ℕ) :
    List (ℕ × DriverScheduleEntry) →
      List ReconciliationMatch × List (ℕ × DriverScheduleEntry) × List ℕ
  | [] => ([], [], consumed)
  | (i, s) :: rest =>
    if amtTruthy s.amount then
      match bestCandidate consumed (normalize_driver_name s.driver) (s.amount.getD 0)
          s.date lookback txs with
      | some j =>
        let r := processSchedules lookback txs (j :: consumed) rest
        ({ schedIdx := i, driver_entry := s, txIdx := j,
           bank_transaction := txs.getD j default, match_type := "FULL" } :: r.1,
         r.2.1, r.2.2)
      | none =>
        let r := processSchedules lookback txs consumed rest
        (r.1, (i, s) :: r.2.1, r.2.2)
    else
      processSchedules lookback txs consumed rest

/-- `ReconciliationEngine.reconcile` (lines 83–178).  The source sorts the
three collections in place before matching; this embedding returns both the
report and the post-call state of the collections. -/
def reconcile (data : ReconciliationData) (lookback_days : ℤ) :
    ReconciliationReport × ReconciliationData :=
  let payments := List.insertionSort (fun a b => a.payment_date ≤ b.payment_date)
    data.payment_remittances
  let txs := List.insertionSort (fun a b => a.transaction_date ≤ b.transaction_date)
    data.bank_transactions
  let scheds := List.insertionSort (fun a b => a.date ≤ b.date) data.driver_schedules
  let res := processSchedules lookback_days txs [] scheds.enum
  ({ total_remittances_received := (payments.map (·.payment_amount)).sum,
     total_paid_to_drivers := (txs.map (·.amount)).sum,
     total_scheduled_amount :=
       ((scheds.filter (fun s => amtTruthy s.amount)).map (fun s => s.amount.getD 0)).sum,
     full_matches := res.1,
     missing_bank_transactions := res.2.1,
     orphan_payments := [],
     orphan_bank_transactions :=
       txs.enum.filter (fun p => decide (p.1 ∉ res.2.2)) },
   { payment_remittances := payments, bank_transactions := txs,
     driver_schedules := scheds })

/-- One driver's summary record (`_build_driver_summaries`). -/
structure DriverSummary where
  scheduled_loads : ℕ := 0
  scheduled_amount : ℤ := 0
  paid_loads : ℕ := 0
  paid_amount : ℤ := 0
  unpaid_loads : ℕ := 0
  unpaid_amount : ℤ := 0
  deriving DecidableEq, Repr

/-- `_build_driver_summaries` (lines 180–213), as the function from a
normalized driver name to its summary.  `scheduled_*` range over all (sorted)
schedule entries, `paid_*` over the FULL matches, `unpaid_*` over the entries
missing a bank transaction; amounts are added only when truthy, counts
unconditionally, exactly as the source's `+=` loops do. -/
def build_driver_summaries (scheds : List DriverScheduleEntry)
    (report : ReconciliationReport) (d : String) : DriverSummary :=
  { scheduled_loads := (scheds.filter (fun s => normalize_driver_name s.driver == d)).length,
    scheduled_amount :=
      ((scheds.filter (fun s =>
          normalize_driver_name s.driver == d && amtTruthy s.amount)).map
        (fun s => s.amount.getD 0)).sum,
    paid_loads := (report.full_matches.filter (fun m =>
        normalize_driver_name m.driver_entry.driver == d)).length,
    paid_amount :=
      ((report.full_matches.filter (fun m =>
          normalize_driver_name m.driver_entry.driver == d &&
            amtTruthy m.driver_entry.amount)).map
        (fun m => m.driver_entry.amount.getD 0)).sum,
    unpaid_loads := (report.missing_bank_transactions.filter (fun p =>
        normalize_driver_name p.2.driver == d)).length,
    unpaid_amount :=
      ((report.missing_bank_transactions.filter (fun p =>
          normalize_driver_name p.2.driver == d && amtTruthy p.2.amount)).map
        (fun p => p.2.amount.getD 0)).sum }

/-- `Load` from `reconcile_loads_payments.py`.  Dates in this script are the
raw strings of the schedule files; `reconcile_data` never reads them. -/
structure Load where
  date : String := ""
  company : String := ""
  pickup : String := ""
  dropoff : String := ""
  load_num : String
  amount : ℤ
  date_paid : Option String := none
  notes : Option String := none
  source_file : String := ""
  deriving DecidableEq, Repr

/-- `Payment` from `reconcile_loads_payments.py`.  Its invoice-line dicts are
only ever printed, never read by `reconcile_data`, and are not modelled. -/
structure Payment where
  payment_ref : String := ""
  paper_doc_num : String := ""
  payment_date : String := ""
  payment_amount : ℤ := 0
  source_file : String := ""
  deriving DecidableEq, Repr

/-- `Deposit` from `reconcile_loads_payments.py`. -/
structure Deposit where
  date : String := ""
  description : String := ""
  amount : ℤ
  balance : ℤ := 0
  load_ref : Option String := none
  source_file : String := ""
  deriving DecidableEq, Repr

/-- Python truthiness of the optional reference string: `None` and the empty
string are falsy (`if dep.load_ref`, `if dep_ref and load.load_num`). -/
def refTruthy : Option String → Bool
  | none => false
  | some r => r != ""

/-- Whether the character list starts with the given pattern. -/
def startsWithL : List Char → List Char → Bool
  | _, [] => true
  | [], _ :: _ => false
  | c :: cs, p :: ps => c == p && startsWithL cs ps

/-- Whether the pattern occurs contiguously in the character list. -/
def containsL : List Char → List Char → Bool
  | [], pat => startsWithL [] pat
  | c :: cs, pat => startsWithL (c :: cs) pat || containsL cs pat

/-- Python `pat in hay` on strings: contiguous-substring containment
(the empty pattern is contained in everything). -/
def pyIn (pat hay : String) : Bool := containsL hay.data pat.data

/-- `Reconciliation` from `reconcile_loads_payments.py`.  `loadIdx` and
`depositIdx` model the object identities of the matched records by their
positions in the input lists; the formatted `match_reason` message is not
modelled. -/
structure Reconciliation where
  loadIdx : ℕ
  load : Load
  depositIdx : ℕ
  deposit : Deposit
  match_confidence : String
  deriving DecidableEq, Repr

/-- Insertion/update step of a Python `dict` built by comprehension: an
existing key keeps its position but gets the new value; a new key is
appended at the end. -/
def dictInsert (m : List (String × ℕ × Deposit)) (k : String) (v : ℕ × Deposit) :
    List (String × ℕ × Deposit) :=
  match m with
  | [] => [(k, v)]
  | (k', v') :: rest =>
    if k' == k then (k', v) :: rest else (k', v') :: dictInsert rest k v

/-- `deposits_by_ref = {dep.load_ref: dep for dep in deposits if dep.load_ref}`
(`reconcile_data`, line 377), with each deposit tagged by its position. -/
def deposits_by_ref (deposits : List Deposit) : List (String × ℕ × Deposit) :=
  (deposits.enum.filter (fun p => refTruthy p.2.load_ref)).foldl
    (fun m p => dictInsert m (p.2.load_ref.getD "") p) []

/-- Python `dict` lookup on the association list (keys are unique). -/
def lookupRef (m : List (String × ℕ × Deposit)) (r : String) : Option (ℕ × Deposit) :=
  (m.find? (fun kv => kv.1 == r)).map (fun kv => kv.2)

/-- The per-load matching cascade of `reconcile_data` (lines 380–407):
tier 1 — exact `load_num` key lookup in the reference dict, confidence
"high"; tier 2 — the first dict entry whose key contains or is contained in
`load_num` (both non-empty), confidence "medium"; tier 3 — the first deposit
whose amount is within one cent of the load amount and that is not the
deposit of an earlier reconciliation, confidence "low". -/
def matchLoad (deposits : List Deposit) (byRef : List (String × ℕ × Deposit))
    (matchedSoFar : List ℕ) (load : Load) : Option ((ℕ × Deposit) × String) :=
  match lookupRef byRef load.load_num with
  | some p => some (p, "high")
  | none =>
    match byRef.find? (fun kv =>
        kv.1 != "" && load.load_num != "" &&
          (pyIn kv.1 load.load_num || pyIn load.load_num kv.1)) with
    | some kv => some (kv.2, "medium")
    | none =>
      match deposits.enum.find? (fun p =>
          iabs (p.2.amount - load.amount) < 1 && decide (p.1 ∉ matchedSoFar)) with
      | some p => some (p, "low")
      | none => none

/-- The load loop of `reconcile_data` (lines 380–418): loads in order, each
appended either to the reconciliations (whose deposit positions are visible
to the amount fallback of later loads) or to the unmatched loads. -/
def reconcileLoads (deposits : List Deposit) (byRef : List (String × ℕ × Deposit)) :
    List (ℕ × Load) → List Reconciliation → List (ℕ × Load) →
      List Reconciliation × List (ℕ × Load)
  | [], recs, unmatched => (recs, unmatched)
  | (i, l) :: rest, recs, unmatched =>
    match matchLoad deposits byRef (recs.map (fun r => r.depositIdx)) l with
    | some (p, conf) =>
      reconcileLoads deposits byRef rest
        (recs ++ [{ loadIdx := i, load := l, depositIdx := p.1, deposit := p.2,
                    match_confidence := conf }]) unmatched
    | none => reconcileLoads deposits byRef rest recs (unmatched ++ [(i, l)])

/-- The four result collections of `reconcile_data`. -/
structure ReconcileDataResult where
  reconciled : List Reconciliation
  unmatched_loads : List (ℕ × Load)
  unmatched_payments : List Payment
  unmatched_deposits : List (ℕ × Deposit)
  deriving DecidableEq, Repr

/-- `reconcile_data(loads, payments, deposits)` (lines 368–432).  The
`loads_by_num` dictionary the source also builds is never read and is not
modelled.  Payments are returned wholesale as unmatched (line 430), and the
unmatched deposits are those whose identity (position) appears in no
reconciliation (lines 421–426). -/
def reconcile_data (loads : List Load) (payments : List Payment)
    (deposits : List Deposit) : ReconcileDataResult :=
  let byRef := deposits_by_ref deposits
  let lr := reconcileLoads deposits byRef loads.enum [] []
  { reconciled := lr.1,
    unmatched_loads := lr.2,
    unmatched_payments := payments,
    unmatched_deposits :=
      deposits.enum.filter (fun p =>
        decide (p.1 ∉ lr.1.map (fun r => r.depositIdx))) }

/-- The last (greatest-position) deposit carrying the truthy reference `r` —
the record a Python dict comprehension retains for a duplicated key. -/
def lastDepositWithRef (deposits : List Deposit) (r : String) : Option (ℕ × Deposit) :=
  deposits.enum.foldl
    (fun acc p =>
      if refTruthy p.2.load_ref && p.2.load_ref.getD "" == r then some p else acc)
    none

/-- First-biased choice on options (used to state last-wins fold lemmas). -/
def oor {α : Type} : Option α → Option α → Option α
  | some x, _ => some x
  | none, b => b

/-! ## Supporting lemmas for the normalizer -/

lemma normalize_fixed_of_value (v : String) (hv : v ∈ driver_name_map.map Prod.snd) :
    normalize_driver_name v = v := by
  simp only [driver_name_map, List.map_cons, List.map_nil, List.mem_cons,
    List.not_mem_nil, or_false] at hv
  rcases hv with h | h | h | h | h | h <;> subst h <;> decide

lemma normalize_mem_or_self (x : String) :
    normalize_driver_name x = x ∨
      normalize_driver_name x ∈ driver_name_map.map Prod.snd := by
  unfold normalize_driver_name
  cases h : driver_name_map.find? (fun kv => pyKeyStrip kv.1 == pyUpperStrip x) with
  | none => exact Or.inl rfl
  | some kv => exact Or.inr (List.mem_map_of_mem _ (List.mem_of_find?_eq_some h))

/-- C8: the driver-name normalizer is idempotent; "BIG RICH", "BigRich" and
"BIGRICH" all normalize to "Rich"; and a name whose uppercased,
space-and-hyphen-stripped form matches no alias key is returned unchanged. -/
theorem C8_normalizer_idempotent :
    (∀ x : String,
        normalize_driver_name (normalize_driver_name x) = normalize_driver_name x) ∧
    normalize_driver_name "BIG RICH" = "Rich" ∧
    normalize_driver_name "BigRich" = "Rich" ∧
    normalize_driver_name "BIGRICH" = "Rich" ∧
    ∀ x : String,
      driver_name_map.find? (fun kv => pyKeyStrip kv.1 == pyUpperStrip x) = none →
      normalize_driver_name x = x := by
  refine ⟨fun x => ?_, by decide, by decide, by decide, fun x h => ?_⟩
  · rcases normalize_mem_or_self x with h | h
    · rw [h]; exact h
    · exact normalize_fixed_of_value _ h
  · unfold normalize_driver_name
    rw [h]

/-- C8 witness: the idempotence and pass-through clauses at the concrete
unrecognized name "Walter". -/
theorem C8_witness :
    normalize_driver_name (normalize_driver_name "Walter") =
        normalize_driver_name "Walter" ∧
    normalize_driver_name "Walter" = "Walter" :=
  ⟨C8_normalizer_idempotent.1 "Walter",
   C8_normalizer_idempotent.2.2.2.2 "Walter" (by decide)⟩

/-- C1 counterexample: a driver with one schedule entry whose amount is
`None` appears in the driver summaries with `scheduled_loads = 1` but
`paid_loads = unpaid_loads = 0`, so the count identity of the claim fails. -/
theorem C1_counterexample :
    ¬ ((build_driver_summaries
          (reconcile { driver_schedules := [{ date := 0, driver := "X", amount := none }] } 90).2.driver_schedules
          (reconcile { driver_schedules := [{ date := 0, driver := "X", amount := none }] } 90).1
          "X").scheduled_loads =
        (build_driver_summaries
          (reconcile { driver_schedules := [{ date := 0, driver := "X", amount := none }] } 90).2.driver_schedules
          (reconcile { driver_schedules := [{ date := 0, driver := "X", amount := none }] } 90).1
          "X").paid_loads +
        (build_driver_summaries
          (reconcile { driver_schedules := [{ date := 0, driver := "X", amount := none }] } 90).2.driver_schedules
          (reconcile { driver_schedules := [{ date := 0, driver := "X", amount := none }] } 90).1
          "X").unpaid_loads) := by decide

/-- C2 counterexample: with `lookback = 100`, a transaction at day
difference exactly 100 qualifies in the claim's sense (same normalized
driver, same amount, day difference ≤ lookback), yet no FULL match is
emitted: its score `100 - 100 = 0` does not exceed the initial best score
`0`, and the load is classified as missing a bank transaction. -/
theorem C2_counterexample :
    txQual [] (normalize_driver_name "X") 500 0 100
      (0, { transaction_date := 100, amount := 500, recipient := "X" }) ∧
    (reconcile { driver_schedules := [{ date := 0, driver := "X", amount := some 500 }],
                 bank_transactions :=
                   [{ transaction_date := 100, amount := 500, recipient := "X" }] }
        100).1.full_matches = [] ∧
    (reconcile { driver_schedules := [{ date := 0, driver := "X", amount := some 500 }],
                 bank_transactions :=
                   [{ transaction_date := 100, amount := 500, recipient := "X" }] }
        100).1.missing_bank_transactions.map Prod.fst = [0] := by decide

/-- C3 counterexample: a load with the non-null amount `some 0` (Python
treats a zero `Decimal` as falsy) is skipped by the matching loop: it
appears in no FULL match and is not classified MISSING_BANK_TRANSACTION
either, even though an exactly matching transaction exists. -/
theorem C3_counterexample :
    (reconcile { driver_schedules := [{ date := 0, driver := "X", amount := some 0 }],
                 bank_transactions := [{ transaction_date := 0, amount := 0, recipient := "X" }] }
        90).1.full_matches = [] ∧
    (reconcile { driver_schedules := [{ date := 0, driver := "X", amount := some 0 }],
                 bank_transactions := [{ transaction_date := 0, amount := 0, recipient := "X" }] }
        90).1.missing_bank_transactions = [] ∧
    (reconcile { driver_schedules := [{ date := 0, driver := "X", amount := some 0 }],
                 bank_transactions := [{ transaction_date := 0, amount := 0, recipient := "X" }] }
        90).2.driver_schedules.map (fun s => s.amount) = [some 0] := by decide

/-- C4 counterexample: in the load-reference mode, two loads bearing the
same load number are both bound to the single deposit with that reference —
the deposit (position 0) appears in two reconciled matches. -/
theorem C4_counterexample :
    ((reconcile_data
        [{ load_num := "A", amount := 500 }, { load_num := "A", amount := 700 }]
        []
        [{ amount := 10000, load_ref := some "A" }]).reconciled.map
      (fun r => r.depositIdx)) = [0, 0] ∧
    ¬ ((reconcile_data
        [{ load_num := "A", amount := 500 }, { load_num := "A", amount := 700 }]
        []
        [{ amount := 10000, load_ref := some "A" }]).reconciled.map
      (fun r => r.depositIdx)).Nodup := by decide

/-- C5 counterexample: two deposits carry the same reference "R"; a load
"XR" matches by substring containment, but the emitted MEDIUM match binds
deposit 1 (the last duplicate, the one the reference dict retained), not
deposit 0, even though deposit 0 is the first deposit in iteration order
whose reference satisfies the containment test. -/
theorem C5_counterexample :
    ((reconcile_data [{ load_num := "XR", amount := 1000 }] []
        [{ amount := 100, load_ref := some "R" }, { amount := 200, load_ref := some "R" }]).reconciled.map
      (fun r => (r.depositIdx, r.match_confidence))) = [(1, "medium")] ∧
    (pyIn "R" "XR" || pyIn "XR" "R") = true ∧
    ([{ amount := 100, load_ref := some "R" },
      ({ amount := 200, load_ref := some "R" } : Deposit)].map (fun d => d.load_ref)) =
      [some "R", some "R"] := by decide

/-- C6 counterexample: a run with one payment record aggregates it into the
remittance total but surfaces nothing in the orphan-payment list, which the
engine always leaves empty. -/
theorem C6_counterexample :
    (reconcile { payment_remittances := [{ payment_date := 0, payment_amount := 100 }] }
        90).1.orphan_payments = [] ∧
    (reconcile { payment_remittances := [{ payment_date := 0, payment_amount := 100 }] }
        90).1.total_remittances_received = 100 := by decide

/-- C7 counterexample: with a non-null but zero amount (`some 0`), the
D/D+90 configuration of the claim produces no FULL match: the engine
treats a zero amount as missing and skips the load. -/
theorem C7_counterexample :
    normalize_driver_name "BIGRICH" = normalize_driver_name "Rich" ∧
    (reconcile { driver_schedules := [{ date := 0, driver := "BIGRICH", amount := some 0 }],
                 bank_transactions := [{ transaction_date := 90, amount := 0, recipient := "Rich" }] }
        90).1.full_matches = [] := by decide

/-- C9 counterexample: `reconcile` sorts the collections in place; with two
bank transactions given out of date order, the collection after the call is
not in its pre-call order. -/
theorem C9_counterexample :
    (reconcile { bank_transactions :=
        [{ transaction_date := 1, amount := 100, recipient := "A" },
         { transaction_date := 0, amount := 200, recipient := "B" }] } 90).2.bank_transactions ≠
      [{ transaction_date := 1, amount := 100, recipient := "A" },
       { transaction_date := 0, amount := 200, recipient := "B" }] := by decide

/-! ## Supporting lemmas for the candidate scan -/

lemma scanTx_cons (consumed : List ℕ) (drv : String) (samt : ℤ) (sdate lookback : ℤ)
    (i : ℕ) (t : BankTransaction) (rest : List (ℕ × BankTransaction)) (acc : Option ℕ × ℤ) :
    scanTx consumed drv samt sdate lookback ((i, t) :: rest) acc =
      scanTx consumed drv samt sdate lookback rest
        (if txQual consumed drv samt sdate lookback (i, t) ∧
            txScore sdate (i, t) > acc.2
         then (some i, txScore sdate (i, t)) else acc) := by
  simp only [scanTx, txQual, txScore]
  by_cases h1 : i ∈ consumed
  · simp [h1]
  by_cases h2 : normalize_driver_name t.recipient = drv
  · by_cases h3 : iabs (t.amount - samt) < 1
    · by_cases h4 : iabs (t.transaction_date - sdate) ≤ lookback
      · by_cases h5 : 100 - iabs (t.transaction_date - sdate) > acc.2
        · simp [h1, h2, h3, h4, h5]
        · simp [h1, h2, h3, h4, h5]
      · simp [h1, h2, h3, h4]
    · simp [h1, h2, h3]
  · simp [h1, h2]

lemma scanTx_spec (consumed : List ℕ) (drv : String) (samt : ℤ) (sdate lookback : ℤ)
    (l : List (ℕ × BankTransaction)) (acc : Option ℕ × ℤ) :
    ((∀ p ∈ l, txQual consumed drv samt sdate lookback p →
        txScore sdate p ≤ acc.2) ∧
      scanTx consumed drv samt sdate lookback l acc = acc) ∨
    (∃ l1 p l2, l = l1 ++ p :: l2 ∧
      txQual consumed drv samt sdate lookback p ∧
      txScore sdate p > acc.2 ∧
      (∀ q ∈ l1, txQual consumed drv samt sdate lookback q →
        txScore sdate q < txScore sdate p) ∧
      (∀ q ∈ l2, txQual consumed drv samt sdate lookback q →
        txScore sdate q ≤ txScore sdate p) ∧
      scanTx consumed drv samt sdate lookback l acc = (some p.1, txScore sdate p)) := by
  induction l generalizing acc with
  | nil => exact Or.inl ⟨by simp, rfl⟩
  | cons x rest ih =>
    obtain ⟨i, t⟩ := x
    rw [scanTx_cons]
    by_cases hx : txQual consumed drv samt sdate lookback (i, t) ∧
        txScore sdate (i, t) > acc.2
    · rw [if_pos hx]
      rcases ih (some (i, t).1, txScore sdate (i, t)) with ⟨hall, heq⟩ |
        ⟨l1, p, l2, hdec, hq, hgt, hl1, hl2, heq⟩
      · refine Or.inr ⟨[], (i, t), rest, rfl, hx.1, hx.2, ?_, ?_, heq⟩
        · intro q hqm
          exact absurd hqm (List.not_mem_nil q)
        · intro q hqm hquc
          exact hall q hqm hquc
      · refine Or.inr ⟨(i, t) :: l1, p, l2, by rw [hdec]; rfl, hq,
          lt_trans hx.2 hgt, ?_, hl2, heq⟩
        intro q hqm hquc
        rcases List.mem_cons.mp hqm with rfl | hqm
        · exact hgt
        · exact hl1 q hqm hquc
    · rw [if_neg hx]
      rcases ih acc with ⟨hall, heq⟩ | ⟨l1, p, l2, hdec, hq, hgt, hl1, hl2, heq⟩
      · refine Or.inl ⟨?_, heq⟩
        intro q hqm hquc
        rcases List.mem_cons.mp hqm with rfl | hqm
        · by_contra hlt
          exact hx ⟨hquc, lt_of_not_le hlt⟩
        · exact hall q hqm hquc
      · refine Or.inr ⟨(i, t) :: l1, p, l2, by rw [hdec]; rfl, hq, hgt, ?_, hl2, heq⟩
        intro q hqm hquc
        rcases List.mem_cons.mp hqm with rfl | hqm
        · by_cases hle : txScore sdate (i, t) ≤ acc.2
          · exact lt_of_le_of_lt hle hgt
          · exact absurd ⟨hquc, lt_of_not_le hle⟩ hx
        · exact hl1 q hqm hquc

lemma enum_decomp_positions {α : Type} (l : List α) (l1 : List (ℕ × α)) (p : ℕ × α)
    (l2 : List (ℕ × α)) (h : l.enum = l1 ++ p :: l2) :
    (∀ q ∈ l1, q.1 < p.1) ∧ (∀ q ∈ l2, p.1 < q.1) := by
  have hfst : (l1 ++ p :: l2).map Prod.fst = List.range l.length := by
    rw [← h]; exact List.enum_map_fst l
  have hp : ((l1 ++ p :: l2).map Prod.fst).Pairwise (· < ·) := by
    rw [hfst]; exact List.sorted_lt_range l.length
  have hp2 : (l1 ++ p :: l2).Pairwise (fun a b => a.1 < b.1) :=
    List.pairwise_map.mp hp
  obtain ⟨-, hcons, hsep⟩ := List.pairwise_append.mp hp2
  constructor
  · intro q hq
    exact hsep q hq p (List.mem_cons_self p l2)
  · intro q hq
    exact (List.pairwise_cons.mp hcons).1 q hq

lemma bestCandidate_spec (consumed : List ℕ) (drv : String) (samt : ℤ)
    (sdate lookback : ℤ) (txs : List BankTransaction)
    (h : ∃ p ∈ txs.enum, txQual consumed drv samt sdate lookback p ∧
      0 < txScore sdate p) :
    ∃ p ∈ txs.enum, bestCandidate consumed drv samt sdate lookback txs = some p.1 ∧
      txQual consumed drv samt sdate lookback p ∧
      (∀ q ∈ txs.enum, txQual consumed drv samt sdate lookback q →
        iabs (p.2.transaction_date - sdate) ≤ iabs (q.2.transaction_date - sdate)) ∧
      (∀ q ∈ txs.enum, txQual consumed drv samt sdate lookback q →
        iabs (q.2.transaction_date - sdate) = iabs (p.2.transaction_date - sdate) →
        p.1 ≤ q.1) := by
  rcases scanTx_spec consumed drv samt sdate lookback txs.enum (none, 0) with
    ⟨hall, heq⟩ | ⟨l1, p, l2, hdec, hq, hgt, hl1, hl2, heq⟩
  · obtain ⟨p, hpm, hpq, hps⟩ := h
    exact absurd (hall p hpm hpq) (by simpa using hps)
  · have hpm : p ∈ txs.enum := by
      rw [hdec]; exact List.mem_append.mpr (Or.inr (List.mem_cons_self p l2))
    have hpos := enum_decomp_positions txs l1 p l2 hdec
    refine ⟨p, hpm, ?_, hq, ?_, ?_⟩
    · unfold bestCandidate; rw [heq]
    · intro q hqm hquc
      rw [hdec] at hqm
      rcases List.mem_append.mp hqm with hqm | hqm
      · have := hl1 q hqm hquc
        unfold txScore at this; omega
      · rcases List.mem_cons.mp hqm with rfl | hqm
        · exact le_refl _
        · have := hl2 q hqm hquc
          unfold txScore at this; omega
    · intro q hqm hquc hdd
      rw [hdec] at hqm
      rcases List.mem_append.mp hqm with hqm | hqm
      · have := hl1 q hqm hquc
        unfold txScore at this; omega
      · rcases List.mem_cons.mp hqm with rfl | hqm
        · exact le_refl _
        · exact le_of_lt (hpos.2 q hqm)

/-- C2 (amended): for a schedule entry with a non-null, non-zero amount, if
at least one not-yet-consumed bank transaction qualifies (same normalized
driver, amount within one cent, day difference within the lookback window)
*and has day difference at most 99* — so that its score `100 - dayDiff` is
positive; always the case when the lookback window is at most 99 days, in
particular for the default 90 — then the matching loop emits a FULL match
for that entry, consuming the selected transaction, and the selected
transaction is a qualifying one with the smallest day difference, ties
broken by the first-encountered position in the date-sorted transaction
list. -/
theorem C2_full_match_selection (lookback : ℤ) (txs : List BankTransaction)
    (consumed : List ℕ) (i : ℕ) (s : DriverScheduleEntry)
    (rest : List (ℕ × DriverScheduleEntry))
    (hamt : amtTruthy s.amount = true)
    (h : ∃ p ∈ txs.enum,
        txQual consumed (normalize_driver_name s.driver) (s.amount.getD 0) s.date lookback p ∧
        iabs (p.2.transaction_date - s.date) < 100) :
    ∃ p ∈ txs.enum,
      txQual consumed (normalize_driver_name s.driver) (s.amount.getD 0) s.date lookback p ∧
      (processSchedules lookback txs consumed ((i, s) :: rest)).1 =
        { schedIdx := i, driver_entry := s, txIdx := p.1,
          bank_transaction := txs.getD p.1 default,
          match_type := "FULL" } ::
          (processSchedules lookback txs (p.1 :: consumed) rest).1 ∧
      (∀ q ∈ txs.enum,
        txQual consumed (normalize_driver_name s.driver) (s.amount.getD 0) s.date lookback q →
          iabs (p.2.transaction_date - s.date) ≤ iabs (q.2.transaction_date - s.date)) ∧
      (∀ q ∈ txs.enum,
        txQual consumed (normalize_driver_name s.driver) (s.amount.getD 0) s.date lookback q →
          iabs (q.2.transaction_date - s.date) = iabs (p.2.transaction_date - s.date) →
          p.1 ≤ q.1) := by
  obtain ⟨p, hpm, hbc, hq, hmin, hties⟩ :=
    bestCandidate_spec consumed (normalize_driver_name s.driver) (s.amount.getD 0)
      s.date lookback txs
      (by
        obtain ⟨p, hpm, hpq, hps⟩ := h
        exact ⟨p, hpm, hpq, by unfold txScore; omega⟩)
  refine ⟨p, hpm, hq, ?_, hmin, hties⟩
  simp only [processSchedules, hamt, if_true, hbc]

/-- C7 (amended): with lookback 90, a load dated day `D` with a non-null,
*non-zero* amount and a bank transaction with the same normalized driver
and the same amount dated exactly `D + 90` produce a FULL match, whereas an
otherwise identical transaction dated `D + 91` does not qualify: the load
is classified as missing a bank transaction and the transaction as an
orphan. -/
theorem C7_lookback_boundary (D : ℤ) (drv rcp : String) (amt : ℤ)
    (hn : normalize_driver_name rcp = normalize_driver_name drv) (ha : amt ≠ 0) :
    (reconcile { driver_schedules := [{ date := D, driver := drv, amount := some amt }],
                 bank_transactions :=
                   [{ transaction_date := D + 90, amount := amt, recipient := rcp }] }
        90).1.full_matches.map (fun m => (m.schedIdx, m.txIdx, m.match_type)) =
      [(0, 0, "FULL")] ∧
    (reconcile { driver_schedules := [{ date := D, driver := drv, amount := some amt }],
                 bank_transactions :=
                   [{ transaction_date := D + 91, amount := amt, recipient := rcp }] }
        90).1.full_matches = [] ∧
    (reconcile { driver_schedules := [{ date := D, driver := drv, amount := some amt }],
                 bank_transactions :=
                   [{ transaction_date := D + 91, amount := amt, recipient := rcp }] }
        90).1.missing_bank_transactions.map Prod.fst = [0] ∧
    (reconcile { driver_schedules := [{ date := D, driver := drv, amount := some amt }],
                 bank_transactions :=
                   [{ transaction_date := D + 91, amount := amt, recipient := rcp }] }
        90).1.orphan_bank_transactions.map Prod.fst = [0] := by
  have h90 : D + 90 - D = (90 : ℤ) := by ring
  have h91 : D + 91 - D = (91 : ℤ) := by ring
  refine ⟨?_, ?_, ?_, ?_⟩ <;>
    simp [reconcile, List.insertionSort, List.orderedInsert, processSchedules,
      bestCandidate, scanTx, amtTruthy, iabs, txScore, h90, h91, hn, ha,
      List.enum_cons, bne_iff_ne]

/-- C2 witness: the amended selection property at a concrete input. -/
theorem C2_witness :
    ∃ p ∈ ([({ transaction_date := 14, amount := 50000, recipient := "Rich" } : BankTransaction)]).enum,
      txQual [] (normalize_driver_name "BIGRICH")
        (Option.getD (some (50000 : ℤ)) 0) (0 : ℤ) 90 p ∧
      (processSchedules 90
          [({ transaction_date := 14, amount := 50000, recipient := "Rich" } : BankTransaction)] []
          [(0, { date := 0, driver := "BIGRICH", amount := some 50000 })]).1 =
        { schedIdx := 0,
          driver_entry := { date := 0, driver := "BIGRICH", amount := some 50000 },
          txIdx := p.1,
          bank_transaction :=
            ([({ transaction_date := 14, amount := 50000, recipient := "Rich" } : BankTransaction)]).getD p.1 default,
          match_type := "FULL" } ::
          (processSchedules 90
            [({ transaction_date := 14, amount := 50000, recipient := "Rich" } : BankTransaction)]
            [p.1] []).1 ∧
      (∀ q ∈ ([({ transaction_date := 14, amount := 50000, recipient := "Rich" } : BankTransaction)]).enum,
        txQual [] (normalize_driver_name "BIGRICH")
          (Option.getD (some (50000 : ℤ)) 0) (0 : ℤ) 90 q →
          iabs (p.2.transaction_date - 0) ≤ iabs (q.2.transaction_date - 0)) ∧
      (∀ q ∈ ([({ transaction_date := 14, amount := 50000, recipient := "Rich" } : BankTransaction)]).enum,
        txQual [] (normalize_driver_name "BIGRICH")
          (Option.getD (some (50000 : ℤ)) 0) (0 : ℤ) 90 q →
          iabs (q.2.transaction_date - 0) = iabs (p.2.transaction_date - 0) →
          p.1 ≤ q.1) :=
  C2_full_match_selection 90
    [({ transaction_date := 14, amount := 50000, recipient := "Rich" } : BankTransaction)] []
    0 { date := 0, driver := "BIGRICH", amount := some 50000 } []
    (by decide)
    ⟨(0, { transaction_date := 14, amount := 50000, recipient := "Rich" }),
      by decide, by decide, by decide⟩

/-- C7 witness: the amended lookback-boundary property at a concrete input. -/
theorem C7_witness :
    (reconcile { driver_schedules := [{ date := 0, driver := "BIGRICH", amount := some 50000 }],
                 bank_transactions :=
                   [{ transaction_date := 0 + 90, amount := 50000, recipient := "Rich" }] }
        90).1.full_matches.map (fun m => (m.schedIdx, m.txIdx, m.match_type)) =
      [(0, 0, "FULL")] ∧
    (reconcile { driver_schedules := [{ date := 0, driver := "BIGRICH", amount := some 50000 }],
                 bank_transactions :=
                   [{ transaction_date := 0 + 91, amount := 50000, recipient := "Rich" }] }
        90).1.full_matches = [] ∧
    (reconcile { driver_schedules := [{ date := 0, driver := "BIGRICH", amount := some 50000 }],
                 bank_transactions :=
                   [{ transaction_date := 0 + 91, amount := 50000, recipient := "Rich" }] }
        90).1.missing_bank_transactions.map Prod.fst = [0] ∧
    (reconcile { driver_schedules := [{ date := 0, driver := "BIGRICH", amount := some 50000 }],
                 bank_transactions :=
                   [{ transaction_date := 0 + 91, amount := 50000, recipient := "Rich" }] }
        90).1.orphan_bank_transactions.map Prod.fst = [0] :=
  C7_lookback_boundary 0 "BIGRICH" "Rich" 50000 (by decide) (by decide)

/-! ## Supporting lemmas for the schedule-matching loop -/

lemma bestCandidate_some_mem (consumed : List ℕ) (drv : String) (samt : ℤ)
    (sdate lookback : ℤ) (txs : List BankTransaction) (j : ℕ)
    (h : bestCandidate consumed drv samt sdate lookback txs = some j) :
    j ∉ consumed ∧ ∃ t, (j, t) ∈ txs.enum := by
  rcases scanTx_spec consumed drv samt sdate lookback txs.enum (none, 0) with
    ⟨-, heq⟩ | ⟨l1, p, l2, hdec, hq, -, -, -, heq⟩
  · rw [bestCandidate, heq] at h
    cases h
  · rw [bestCandidate, heq] at h
    obtain rfl : p.1 = j := by simpa using h
    refine ⟨hq.1, p.2, ?_⟩
    rw [hdec]
    exact List.mem_append.mpr (Or.inr (by simp))

lemma processSchedules_perm (lookback : ℤ) (txs : List BankTransaction) :
    ∀ (es : List (ℕ × DriverScheduleEntry)) (consumed : List ℕ),
      List.Perm
        ((processSchedules lookback txs consumed es).1.map
            (fun m => (m.schedIdx, m.driver_entry)) ++
          (processSchedules lookback txs consumed es).2.1)
        (es.filter (fun p => amtTruthy p.2.amount)) := by
  intro es
  induction es with
  | nil => intro consumed; simp [processSchedules]
  | cons x rest ih =>
    intro consumed
    obtain ⟨i, s⟩ := x
    by_cases hamt : amtTruthy s.amount
    · cases hbc : bestCandidate consumed (normalize_driver_name s.driver)
          (s.amount.getD 0) s.date lookback txs with
      | some j =>
        simpa [processSchedules, hamt, hbc] using (ih (j :: consumed)).cons (i, s)
      | none =>
        simpa [processSchedules, hamt, hbc] using
          List.perm_middle.trans ((ih consumed).cons (i, s))
    · have hamt' : amtTruthy s.amount = false := by simpa using hamt
      simpa [processSchedules, hamt'] using ih consumed

lemma processSchedules_consumed (lookback : ℤ) (txs : List BankTransaction) :
    ∀ (es : List (ℕ × DriverScheduleEntry)) (consumed : List ℕ) (j : ℕ),
      (j ∈ (processSchedules lookback txs consumed es).2.2 ↔
        j ∈ (processSchedules lookback txs consumed es).1.map (fun m => m.txIdx) ∨
          j ∈ consumed) := by
  intro es
  induction es with
  | nil => intro consumed j; simp [processSchedules]
  | cons x rest ih =>
    intro consumed j
    obtain ⟨i, s⟩ := x
    by_cases hamt : amtTruthy s.amount
    · cases hbc : bestCandidate consumed (normalize_driver_name s.driver)
          (s.amount.getD 0) s.date lookback txs with
      | some j' =>
        simp only [processSchedules, hamt, if_true, hbc, List.map_cons,
          List.mem_cons]
        rw [ih (j' :: consumed) j]
        simp only [List.mem_cons]
        tauto
      | none =>
        simp only [processSchedules, hamt, if_true, hbc]
        exact ih consumed j
    · have hamt' : amtTruthy s.amount = false := by simpa using hamt
      simp only [processSchedules, hamt', if_false, Bool.false_eq_true]
      exact ih consumed j

lemma processSchedules_tx_nodup (lookback : ℤ) (txs : List BankTransaction) :
    ∀ (es : List (ℕ × DriverScheduleEntry)) (consumed : List ℕ),
      ((processSchedules lookback txs consumed es).1.map (fun m => m.txIdx)).Nodup ∧
      ∀ j ∈ (processSchedules lookback txs consumed es).1.map (fun m => m.txIdx),
        j ∉ consumed := by
  intro es
  induction es with
  | nil => intro consumed; simp [processSchedules]
  | cons x rest ih =>
    intro consumed
    obtain ⟨i, s⟩ := x
    by_cases hamt : amtTruthy s.amount
    · cases hbc : bestCandidate consumed (normalize_driver_name s.driver)
          (s.amount.getD 0) s.date lookback txs with
      | some j =>
        obtain ⟨hjc, -⟩ := bestCandidate_some_mem _ _ _ _ _ _ _ hbc
        obtain ⟨hnd, hfresh⟩ := ih (j :: consumed)
        simp only [processSchedules, hamt, if_true, hbc, List.map_cons]
        constructor
        · exact List.nodup_cons.mpr
            ⟨fun hmem => (hfresh j hmem) (List.mem_cons_self j consumed), hnd⟩
        · intro x hx
          rcases List.mem_cons.mp hx with rfl | hx
          · exact hjc
          · intro hxc
            exact hfresh x hx (List.mem_cons_of_mem j hxc)
      | none =>
        simp only [processSchedules, hamt, if_true, hbc]
        exact ih consumed
    · have hamt' : amtTruthy s.amount = false := by simpa using hamt
      simp only [processSchedules, hamt', if_false, Bool.false_eq_true]
      exact ih consumed

lemma processSchedules_full_fields (lookback : ℤ) (txs : List BankTransaction) :
    ∀ (es : List (ℕ × DriverScheduleEntry)) (consumed : List ℕ),
      ∀ m ∈ (processSchedules lookback txs consumed es).1,
        m.match_type = "FULL" ∧ m.payment_remittance = none := by
  intro es
  induction es with
  | nil => intro consumed m hm; simp [processSchedules] at hm
  | cons x rest ih =>
    intro consumed m hm
    obtain ⟨i, s⟩ := x
    by_cases hamt : amtTruthy s.amount
    · cases hbc : bestCandidate consumed (normalize_driver_name s.driver)
          (s.amount.getD 0) s.date lookback txs with
      | some j =>
        simp only [processSchedules, hamt, if_true, hbc, List.mem_cons] at hm
        rcases hm with rfl | hm
        · exact ⟨rfl, rfl⟩
        · exact ih (j :: consumed) m hm
      | none =>
        simp only [processSchedules, hamt, if_true, hbc] at hm
        exact ih consumed m hm
    · have hamt' : amtTruthy s.amount = false := by simpa using hamt
      simp only [processSchedules, hamt', if_false, Bool.false_eq_true] at hm
      exact ih consumed m hm

lemma enum_filter_snd {α : Type} (l : List α) (q : α → Bool) :
    (l.enum.filter (fun p => q p.2)).map Prod.snd = l.filter q := by
  have h : List.filter q (List.map Prod.snd l.enum) =
      List.map Prod.snd (List.filter (q ∘ Prod.snd) l.enum) :=
    List.filter_map Prod.snd l.enum
  rw [List.enum_map_snd] at h
  have hf : (fun p : ℕ × α => q p.2) = (q ∘ Prod.snd) := rfl
  rw [hf, ← h]

/-- C3 (amended): one run of the driver-identity matcher classifies every
schedule entry with a non-null, *non-zero* amount into exactly one outcome —
the FULL matches and the missing-bank-transaction entries together form a
permutation of the truthy-amount entries of the sorted schedule list, with
no entry position repeated — and every bank transaction is an orphan
exactly when it is consumed by no FULL match.  (Entries whose amount is
null *or zero* are skipped entirely, see the counterexample.) -/
theorem C3_outcome_partition (data : ReconciliationData) (lookback : ℤ) :
    List.Perm
      ((reconcile data lookback).1.full_matches.map
          (fun m => (m.schedIdx, m.driver_entry)) ++
        (reconcile data lookback).1.missing_bank_transactions)
      ((reconcile data lookback).2.driver_schedules.enum.filter
        (fun p => amtTruthy p.2.amount)) ∧
    ((reconcile data lookback).1.full_matches.map (fun m => m.schedIdx) ++
      (reconcile data lookback).1.missing_bank_transactions.map Prod.fst).Nodup ∧
    (∀ m ∈ (reconcile data lookback).1.full_matches, m.match_type = "FULL") ∧
    (∀ p ∈ (reconcile data lookback).2.bank_transactions.enum,
      (p ∈ (reconcile data lookback).1.orphan_bank_transactions ↔
        p.1 ∉ (reconcile data lookback).1.full_matches.map (fun m => m.txIdx))) := by
  simp only [reconcile]
  refine ⟨processSchedules_perm _ _ _ _, ?_, ?_, ?_⟩
  · have hperm := processSchedules_perm lookback
      (List.insertionSort (fun a b => a.transaction_date ≤ b.transaction_date)
        data.bank_transactions)
      (List.insertionSort (fun a b => a.date ≤ b.date) data.driver_schedules).enum []
    have h2 := hperm.map Prod.fst
    have hsub : List.Sublist
        ((((List.insertionSort (fun a b => a.date ≤ b.date)
            data.driver_schedules).enum.filter
          (fun p => amtTruthy p.2.amount)).map Prod.fst))
        ((List.insertionSort (fun a b => a.date ≤ b.date)
            data.driver_schedules).enum.map Prod.fst) :=
      (List.filter_sublist _).map _
    rw [List.enum_map_fst] at hsub
    have hnd := hsub.nodup (List.nodup_range _)
    have := (h2.nodup_iff).mpr hnd
    simpa [List.map_map, Function.comp] using this
  · exact fun m hm => (processSchedules_full_fields _ _ _ _ m hm).1
  · intro p hp
    simp only [List.mem_filter, decide_eq_true_eq, hp, true_and]
    rw [processSchedules_consumed]
    simp

lemma enum_filter_length {α : Type} (l : List α) (q : α → Bool) :
    (l.enum.filter (fun p => q p.2)).length = (l.filter q).length := by
  rw [← enum_filter_snd l q, List.length_map]

lemma enum_filter_map_sum {α : Type} (l : List α) (q : α → Bool) (g : α → ℤ) :
    ((l.enum.filter (fun p => q p.2)).map (fun p => g p.2)).sum =
      ((l.filter q).map g).sum := by
  rw [← enum_filter_snd l q, List.map_map]
  rfl

lemma processSchedules_sums (lookback : ℤ) (txs : List BankTransaction) (d : String) :
    ∀ (es : List (ℕ × DriverScheduleEntry)) (consumed : List ℕ),
      ((es.filter (fun p =>
          (normalize_driver_name p.2.driver == d) && amtTruthy p.2.amount)).map
        (fun p => p.2.amount.getD 0)).sum =
        (((processSchedules lookback txs consumed es).1.filter (fun m =>
            (normalize_driver_name m.driver_entry.driver == d) &&
              amtTruthy m.driver_entry.amount)).map
          (fun m => m.driver_entry.amount.getD 0)).sum +
        (((processSchedules lookback txs consumed es).2.1.filter (fun p =>
            (normalize_driver_name p.2.driver == d) && amtTruthy p.2.amount)).map
          (fun p => p.2.amount.getD 0)).sum ∧
      (es.filter (fun p => normalize_driver_name p.2.driver == d)).length =
        ((processSchedules lookback txs consumed es).1.filter (fun m =>
          normalize_driver_name m.driver_entry.driver == d)).length +
        ((processSchedules lookback txs consumed es).2.1.filter (fun p =>
          normalize_driver_name p.2.driver == d)).length +
        (es.filter (fun p =>
          (normalize_driver_name p.2.driver == d) && !amtTruthy p.2.amount)).length := by
  intro es
  induction es with
  | nil => intro consumed; simp [processSchedules]
  | cons x rest ih =>
    intro consumed
    obtain ⟨i, s⟩ := x
    by_cases hamt : amtTruthy s.amount
    · cases hbc : bestCandidate consumed (normalize_driver_name s.driver)
          (s.amount.getD 0) s.date lookback txs with
      | some j =>
        obtain ⟨ihs, ihl⟩ := ih (j :: consumed)
        by_cases hd : normalize_driver_name s.driver == d
        · simp only [processSchedules, hamt, if_true, hbc, List.filter_cons, hd,
            Bool.true_and, hamt, Bool.not_true, Bool.and_false, if_true, if_false,
            List.map_cons, List.sum_cons]
          constructor
          · rw [ihs]; ring
          · simp only [List.length_cons, Bool.false_eq_true, if_false]
            omega
        · have hd' : (normalize_driver_name s.driver == d) = false := by
            simpa using hd
          simp only [processSchedules, hamt, if_true, hbc, List.filter_cons, hd',
            Bool.false_and, if_false]
          exact ⟨ihs, ihl⟩
      | none =>
        obtain ⟨ihs, ihl⟩ := ih consumed
        by_cases hd : normalize_driver_name s.driver == d
        · simp only [processSchedules, hamt, if_true, hbc, List.filter_cons, hd,
            Bool.true_and, hamt, Bool.not_true, Bool.and_false, if_true, if_false,
            List.map_cons, List.sum_cons]
          constructor
          · rw [ihs]; ring
          · simp only [List.length_cons, Bool.false_eq_true, if_false]
            omega
        · have hd' : (normalize_driver_name s.driver == d) = false := by
            simpa using hd
          simp only [processSchedules, hamt, if_true, hbc, List.filter_cons, hd',
            Bool.false_and, if_false]
          exact ⟨ihs, ihl⟩
    · have hamt' : amtTruthy s.amount = false := by simpa using hamt
      obtain ⟨ihs, ihl⟩ := ih consumed
      by_cases hd : normalize_driver_name s.driver == d
      · simp only [processSchedules, hamt', if_false, Bool.false_eq_true,
          List.filter_cons, hd, Bool.true_and, hamt', Bool.not_false,
          Bool.and_false, Bool.and_true, if_true, if_false, List.map_cons,
          List.sum_cons]
        constructor
        · exact ihs
        · simp only [List.length_cons, Bool.false_eq_true, if_false]
          omega
      · have hd' : (normalize_driver_name s.driver == d) = false := by
          simpa using hd
        simp only [processSchedules, hamt', if_false, Bool.false_eq_true,
          List.filter_cons, hd', Bool.false_and, if_false]
        exact ⟨ihs, ihl⟩

/-- C1 (amended): for every input and driver, the *amount* conservation
identity holds exactly — scheduled_amount = paid_amount + unpaid_amount —
while the count identity holds up to the driver's schedule entries whose
amount is null or zero, which are counted as scheduled but are neither
matched nor classified unpaid: scheduled_loads = paid_loads + unpaid_loads
+ (number of that driver's entries with a falsy amount). -/
theorem C1_conservation (data : ReconciliationData) (lookback : ℤ) (d : String) :
    (build_driver_summaries (reconcile data lookback).2.driver_schedules
        (reconcile data lookback).1 d).scheduled_amount =
      (build_driver_summaries (reconcile data lookback).2.driver_schedules
        (reconcile data lookback).1 d).paid_amount +
      (build_driver_summaries (reconcile data lookback).2.driver_schedules
        (reconcile data lookback).1 d).unpaid_amount ∧
    (build_driver_summaries (reconcile data lookback).2.driver_schedules
        (reconcile data lookback).1 d).scheduled_loads =
      (build_driver_summaries (reconcile data lookback).2.driver_schedules
        (reconcile data lookback).1 d).paid_loads +
      (build_driver_summaries (reconcile data lookback).2.driver_schedules
        (reconcile data lookback).1 d).unpaid_loads +
      ((reconcile data lookback).2.driver_schedules.filter
        (fun s => (normalize_driver_name s.driver == d) && !amtTruthy s.amount)).length := by
  simp only [reconcile, build_driver_summaries]
  obtain ⟨hs, hl⟩ := processSchedules_sums lookback
    (List.insertionSort (fun a b => a.transaction_date ≤ b.transaction_date)
      data.bank_transactions) d
    (List.insertionSort (fun a b => a.date ≤ b.date) data.driver_schedules).enum []
  have hsum :
      (((List.insertionSort (fun a b => a.date ≤ b.date)
          data.driver_schedules).enum.filter (fun p =>
        (normalize_driver_name p.2.driver == d) && amtTruthy p.2.amount)).map
          (fun p => p.2.amount.getD 0)).sum =
      (((List.insertionSort (fun a b => a.date ≤ b.date)
          data.driver_schedules).filter (fun s =>
        (normalize_driver_name s.driver == d) && amtTruthy s.amount)).map
          (fun s => s.amount.getD 0)).sum :=
    enum_filter_map_sum
      (List.insertionSort (fun a b => a.date ≤ b.date) data.driver_schedules)
      (fun s => (normalize_driver_name s.driver == d) && amtTruthy s.amount)
      (fun s => s.amount.getD 0)
  have hlen1 :
      ((List.insertionSort (fun a b => a.date ≤ b.date)
          data.driver_schedules).enum.filter (fun p =>
        normalize_driver_name p.2.driver == d)).length =
      ((List.insertionSort (fun a b => a.date ≤ b.date)
          data.driver_schedules).filter (fun s =>
        normalize_driver_name s.driver == d)).length :=
    enum_filter_length
      (List.insertionSort (fun a b => a.date ≤ b.date) data.driver_schedules)
      (fun s => normalize_driver_name s.driver == d)
  have hlen2 :
      ((List.insertionSort (fun a b => a.date ≤ b.date)
          data.driver_schedules).enum.filter (fun p =>
        (normalize_driver_name p.2.driver == d) && !amtTruthy p.2.amount)).length =
      ((List.insertionSort (fun a b => a.date ≤ b.date)
          data.driver_schedules).filter (fun s =>
        (normalize_driver_name s.driver == d) && !amtTruthy s.amount)).length :=
    enum_filter_length
      (List.insertionSort (fun a b => a.date ≤ b.date) data.driver_schedules)
      (fun s => (normalize_driver_name s.driver == d) && !amtTruthy s.amount)
  constructor
  · rw [← hsum]
    exact hs
  · rw [← hlen1, ← hlen2]
    exact hl

/-- C6 (amended): payments are never matched — every FULL match's payment
field is empty — and every payment is aggregated into
`total_remittances_received`; but the engine's orphan-payment list is
always empty (`_find_orphan_payments` returns `[]`), so payments are *not*
surfaced there. -/
theorem C6_payments_aggregated_not_surfaced (data : ReconciliationData) (lookback : ℤ) :
    (reconcile data lookback).1.orphan_payments = [] ∧
    (reconcile data lookback).1.total_remittances_received =
      (data.payment_remittances.map (fun p => p.payment_amount)).sum ∧
    ∀ m ∈ (reconcile data lookback).1.full_matches, m.payment_remittance = none := by
  refine ⟨rfl, ?_, ?_⟩
  · simp only [reconcile]
    exact ((List.perm_insertionSort _ _).map _).sum_eq
  · intro m hm
    simp only [reconcile] at hm
    exact (processSchedules_full_fields _ _ _ _ m hm).2

/-- C9 (amended): `reconcile` replaces each input collection by its
date-sorted version — the collections after the call hold exactly the same
elements (a permutation of the originals), but not necessarily in the
original order; the matching phase itself adds and removes nothing. -/
theorem C9_collections_sorted_permutation (data : ReconciliationData) (lookback : ℤ) :
    List.Perm (reconcile data lookback).2.payment_remittances
      data.payment_remittances ∧
    List.Perm (reconcile data lookback).2.bank_transactions
      data.bank_transactions ∧
    List.Perm (reconcile data lookback).2.driver_schedules
      data.driver_schedules ∧
    (reconcile data lookback).2.payment_remittances =
      List.insertionSort (fun a b => a.payment_date ≤ b.payment_date)
        data.payment_remittances ∧
    (reconcile data lookback).2.bank_transactions =
      List.insertionSort (fun a b => a.transaction_date ≤ b.transaction_date)
        data.bank_transactions ∧
    (reconcile data lookback).2.driver_schedules =
      List.insertionSort (fun a b => a.date ≤ b.date) data.driver_schedules := by
  refine ⟨?_, ?_, ?_, rfl, rfl, rfl⟩ <;>
    exact List.perm_insertionSort _ _

lemma processSchedules_append_nodup (lookback : ℤ) (txs : List BankTransaction)
    (L : List DriverScheduleEntry) :
    ((processSchedules lookback txs [] L.enum).1.map (fun m => m.schedIdx) ++
      (processSchedules lookback txs [] L.enum).2.1.map Prod.fst).Nodup := by
  have hperm := processSchedules_perm lookback txs L.enum []
  have h2 := hperm.map Prod.fst
  have hsub : List.Sublist
      ((L.enum.filter (fun p => amtTruthy p.2.amount)).map Prod.fst)
      (L.enum.map Prod.fst) :=
    (List.filter_sublist _).map _
  rw [List.enum_map_fst] at hsub
  have hnd := hsub.nodup (List.nodup_range _)
  have := (h2.nodup_iff).mpr hnd
  simpa [List.map_map, Function.comp] using this

/-! ## Supporting lemmas for the load-reference matcher -/

lemma matchLoad_low_fresh (deposits : List Deposit)
    (byRef : List (String × ℕ × Deposit)) (matched : List ℕ) (load : Load)
    (p : ℕ × Deposit) (conf : String)
    (h : matchLoad deposits byRef matched load = some (p, conf))
    (hconf : conf = "low") : p.1 ∉ matched := by
  unfold matchLoad at h
  cases h1 : lookupRef byRef load.load_num with
  | some q =>
    rw [h1] at h
    simp only [Option.some.injEq, Prod.mk.injEq] at h
    rw [← h.2] at hconf
    exact absurd hconf (by decide)
  | none =>
    rw [h1] at h
    cases h2 : byRef.find? (fun kv =>
        kv.1 != "" && load.load_num != "" &&
          (pyIn kv.1 load.load_num || pyIn load.load_num kv.1)) with
    | some kv =>
      rw [h2] at h
      simp only [Option.some.injEq, Prod.mk.injEq] at h
      rw [← h.2] at hconf
      exact absurd hconf (by decide)
    | none =>
      rw [h2] at h
      cases h3 : deposits.enum.find? (fun q =>
          iabs (q.2.amount - load.amount) < 1 && decide (q.1 ∉ matched)) with
      | some q =>
        rw [h3] at h
        simp only [Option.some.injEq, Prod.mk.injEq] at h
        have hq := List.find?_some h3
        rw [h.1] at hq
        simp only [Bool.and_eq_true, decide_eq_true_eq] at hq
        exact hq.2
      | none =>
        rw [h3] at h
        cases h

lemma reconcileLoads_pairwise_low (deposits : List Deposit)
    (byRef : List (String × ℕ × Deposit)) :
    ∀ (es : List (ℕ × Load)) (recs : List Reconciliation) (unm : List (ℕ × Load)),
      recs.Pairwise (fun r1 r2 =>
        r2.match_confidence = "low" → r1.depositIdx ≠ r2.depositIdx) →
      ((reconcileLoads deposits byRef es recs unm).1.Pairwise (fun r1 r2 =>
        r2.match_confidence = "low" → r1.depositIdx ≠ r2.depositIdx)) := by
  intro es
  induction es with
  | nil => intro recs unm h; simpa [reconcileLoads] using h
  | cons x rest ih =>
    intro recs unm h
    obtain ⟨i, l⟩ := x
    cases hm : matchLoad deposits byRef (recs.map (fun r => r.depositIdx)) l with
    | some pc =>
      obtain ⟨p, conf⟩ := pc
      simp only [reconcileLoads, hm]
      apply ih
      rw [List.pairwise_append]
      refine ⟨h, List.pairwise_singleton _ _, ?_⟩
      intro r1 hr1 r2 hr2
      simp only [List.mem_singleton] at hr2
      subst hr2
      dsimp only
      intro hlow heq
      have hfresh := matchLoad_low_fresh deposits byRef _ l p conf hm hlow
      exact hfresh (by
        rw [← heq]
        exact List.mem_map_of_mem _ hr1)
    | none =>
      simp only [reconcileLoads, hm]
      exact ih recs (unm ++ [(i, l)]) h

lemma reconcileLoads_loadIdx_nodup (deposits : List Deposit)
    (byRef : List (String × ℕ × Deposit)) :
    ∀ (es : List (ℕ × Load)) (recs : List Reconciliation) (unm : List (ℕ × Load)),
      (es.map Prod.fst).Nodup →
      (∀ x ∈ recs, x.loadIdx ∉ es.map Prod.fst) →
      ((recs.map (fun r => r.loadIdx)).Nodup) →
      ((reconcileLoads deposits byRef es recs unm).1.map (fun r => r.loadIdx)).Nodup := by
  intro es
  induction es with
  | nil => intro recs unm _ _ h; simpa [reconcileLoads] using h
  | cons x rest ih =>
    intro recs unm hes hfresh hnd
    obtain ⟨i, l⟩ := x
    simp only [List.map_cons, List.nodup_cons] at hes
    cases hm : matchLoad deposits byRef (recs.map (fun r => r.depositIdx)) l with
    | some pc =>
      obtain ⟨p, conf⟩ := pc
      simp only [reconcileLoads, hm]
      apply ih
      · exact hes.2
      · intro x hx
        rcases List.mem_append.mp hx with hx | hx
        · intro hmem
          exact hfresh x hx (List.mem_cons_of_mem _ hmem)
        · simp only [List.mem_singleton] at hx
          subst hx
          exact hes.1
      · rw [List.map_append]
        rw [List.nodup_append]
        refine ⟨hnd, List.nodup_singleton _, ?_⟩
        intro a ha hb
        simp only [List.map_cons, List.map_nil, List.mem_singleton] at hb
        subst hb
        rcases List.mem_map.mp ha with ⟨r, hr, hridx⟩
        exact hfresh r hr (by rw [← hridx]; exact List.mem_cons_self _ _)
    | none =>
      simp only [reconcileLoads, hm]
      exact ih recs (unm ++ [(i, l)]) hes.2
        (fun x hx => fun hmem => hfresh x hx (List.mem_cons_of_mem _ hmem)) hnd

/-- C4 (amended): in the driver-identity mode, no bank transaction and no
schedule entry appears in more than one FULL match.  In the load-reference
mode, no load appears in more than one reconciled match, and an
amount-fallback (LOW) match never reuses a deposit already bound by any
earlier match; HIGH/MEDIUM reference-tier matches, however, can bind the
same deposit to several loads (see the counterexample). -/
theorem C4_at_most_one (data : ReconciliationData) (lookback : ℤ)
    (loads : List Load) (payments : List Payment) (deposits : List Deposit) :
    ((reconcile data lookback).1.full_matches.map (fun m => m.txIdx)).Nodup ∧
    ((reconcile data lookback).1.full_matches.map (fun m => m.schedIdx)).Nodup ∧
    ((reconcile_data loads payments deposits).reconciled.map
      (fun r => r.loadIdx)).Nodup ∧
    (reconcile_data loads payments deposits).reconciled.Pairwise
      (fun r1 r2 => r2.match_confidence = "low" → r1.depositIdx ≠ r2.depositIdx) := by
  refine ⟨?_, ?_, ?_, ?_⟩
  · exact (processSchedules_tx_nodup lookback _ _ _).1
  · have h := processSchedules_append_nodup lookback
      (List.insertionSort (fun a b => a.transaction_date ≤ b.transaction_date)
        data.bank_transactions)
      (List.insertionSort (fun a b => a.date ≤ b.date) data.driver_schedules)
    exact (List.nodup_append.mp h).1
  · apply reconcileLoads_loadIdx_nodup
    · rw [List.enum_map_fst]
      exact List.nodup_range _
    · intro x hx
      exact absurd hx (List.not_mem_nil x)
    · exact List.nodup_nil
  · apply reconcileLoads_pairwise_low
    exact List.Pairwise.nil

lemma oor_none {α : Type} (a : Option α) : oor a none = a := by
  cases a <;> rfl

lemma foldl_lastwins {α : Type} (C : α → Bool) :
    ∀ (l : List α) (a : Option α),
      l.foldl (fun acc p => if C p then some p else acc) a =
        oor (l.foldl (fun acc p => if C p then some p else acc) none) a := by
  intro l
  induction l with
  | nil => intro a; cases a <;> rfl
  | cons x rest ih =>
    intro a
    simp only [List.foldl_cons]
    rw [ih (if C x then some x else a), ih (if C x then some x else none)]
    cases hr : rest.foldl (fun acc p => if C p then some p else acc) none with
    | some y => rfl
    | none =>
      by_cases hc : C x = true
      · simp [hc, oor]
      · simp [hc, oor]

lemma foldl_lastwins_mem {α : Type} (C : α → Bool) :
    ∀ (l : List α) (a : Option α) (p : α),
      l.foldl (fun acc q => if C q then some q else acc) a = some p →
      (p ∈ l ∧ C p = true) ∨ a = some p := by
  intro l
  induction l with
  | nil => intro a p h; exact Or.inr h
  | cons x rest ih =>
    intro a p h
    simp only [List.foldl_cons] at h
    rcases ih (if C x then some x else a) p h with ⟨hm, hc⟩ | hax
    · exact Or.inl ⟨List.mem_cons_of_mem x hm, hc⟩
    · by_cases hc : C x = true
      · rw [if_pos hc] at hax
        obtain rfl : x = p := by simpa using hax
        exact Or.inl ⟨List.mem_cons_self x rest, hc⟩
      · rw [if_neg hc] at hax
        exact Or.inr hax

lemma foldl_filter_guard {α β : Type} (q : α → Bool) (f : β → α → β) :
    ∀ (l : List α) (b : β),
      (l.filter q).foldl f b =
        l.foldl (fun acc p => if q p then f acc p else acc) b := by
  intro l
  induction l with
  | nil => intro b; rfl
  | cons x rest ih =>
    intro b
    by_cases hq : q x = true
    · simp [List.filter_cons, hq, ih]
    · simp [List.filter_cons, hq, ih]

lemma lookupRef_dictInsert (m : List (String × ℕ × Deposit)) (k : String)
    (v : ℕ × Deposit) (r : String) :
    lookupRef (dictInsert m k v) r =
      if k == r then some v else lookupRef m r := by
  induction m with
  | nil =>
    by_cases hkr : (k == r) = true <;>
      simp [lookupRef, dictInsert, List.find?_cons, hkr]
  | cons kv rest ih =>
    obtain ⟨k', v'⟩ := kv
    by_cases h1 : (k' == k) = true
    · have hk : k' = k := by simpa using h1
      subst hk
      by_cases h2 : (k' == r) = true <;>
        simp [lookupRef, dictInsert, List.find?_cons, h1, h2]
    · by_cases h2 : (k' == r) = true
      · have hk : k' = r := by simpa using h2
        have h3 : (k == r) = false := by
          rcases Bool.eq_false_or_eq_true (k == r) with h | h
          · have : k = r := by simpa using h
            subst this
            exact absurd h2 (by simpa using h1)
          · exact h
        simp [lookupRef, dictInsert, List.find?_cons, h1, h2, h3]
      · simp only [dictInsert, h1, Bool.false_eq_true, if_false]
        simp only [lookupRef, List.find?_cons, h2] at ih ⊢
        exact ih

lemma lookupRef_build :
    ∀ (l : List (ℕ × Deposit)) (m : List (String × ℕ × Deposit)) (r : String),
      lookupRef (l.foldl (fun m p => dictInsert m (p.2.load_ref.getD "") p) m) r =
        oor (l.foldl (fun acc p =>
            if p.2.load_ref.getD "" == r then some p else acc) none)
          (lookupRef m r) := by
  intro l
  induction l with
  | nil => intro m r; simp [oor]
  | cons p rest ih =>
    intro m r
    simp only [List.foldl_cons]
    rw [ih (dictInsert m (p.2.load_ref.getD "") p) r, lookupRef_dictInsert]
    rw [foldl_lastwins (fun p => p.2.load_ref.getD "" == r) rest
      (if p.2.load_ref.getD "" == r then some p else none)]
    cases hr : rest.foldl (fun acc p =>
        if p.2.load_ref.getD "" == r then some p else acc) none with
    | some y => rfl
    | none =>
      by_cases hc : (p.2.load_ref.getD "" == r) = true
      · simp [hc, oor]
      · simp [hc, oor]

lemma lookupRef_deposits_by_ref (deposits : List Deposit) (r : String) :
    lookupRef (deposits_by_ref deposits) r = lastDepositWithRef deposits r := by
  unfold deposits_by_ref lastDepositWithRef
  rw [lookupRef_build]
  have hnil : lookupRef [] r = none := rfl
  rw [hnil, oor_none]
  rw [foldl_filter_guard (fun p => refTruthy p.2.load_ref)
    (fun acc p => if p.2.load_ref.getD "" == r then some p else acc) deposits.enum none]
  congr 1
  funext acc p
  by_cases ht : refTruthy p.2.load_ref = true
  · by_cases hk : (p.2.load_ref.getD "" == r) = true <;> simp [ht, hk]
  · have ht' : refTruthy p.2.load_ref = false := by simpa using ht
    simp [ht']

lemma dictInsert_keys_mem (x : String) (k : String) (v : ℕ × Deposit) :
    ∀ (m : List (String × ℕ × Deposit)),
      (x ∈ (dictInsert m k v).map Prod.fst ↔ x ∈ m.map Prod.fst ∨ x = k) := by
  intro m
  induction m with
  | nil => simp [dictInsert]
  | cons kv rest ih =>
    obtain ⟨k', v'⟩ := kv
    by_cases h1 : (k' == k) = true
    · have hk : k' = k := by simpa using h1
      subst hk
      simp only [dictInsert, h1, if_true, List.map_cons, List.mem_cons]
      tauto
    · simp only [dictInsert, h1, Bool.false_eq_true, if_false, List.map_cons,
        List.mem_cons, ih]
      tauto

lemma dictInsert_keys_nodup (k : String) (v : ℕ × Deposit) :
    ∀ (m : List (String × ℕ × Deposit)),
      (m.map Prod.fst).Nodup → ((dictInsert m k v).map Prod.fst).Nodup := by
  intro m
  induction m with
  | nil => intro _; simp [dictInsert]
  | cons kv rest ih =>
    obtain ⟨k', v'⟩ := kv
    intro hnd
    simp only [List.map_cons, List.nodup_cons] at hnd
    by_cases h1 : (k' == k) = true
    · have hk : k' = k := by simpa using h1
      subst hk
      simp only [dictInsert, h1, if_true, List.map_cons, List.nodup_cons]
      exact hnd
    · simp only [dictInsert, h1, Bool.false_eq_true, if_false, List.map_cons,
        List.nodup_cons]
      constructor
      · rw [dictInsert_keys_mem]
        rintro (hm | rfl)
        · exact hnd.1 hm
        · simp at h1
      · exact ih hnd.2

lemma deposits_by_ref_keys_nodup (deposits : List Deposit) :
    ((deposits_by_ref deposits).map Prod.fst).Nodup := by
  unfold deposits_by_ref
  generalize (deposits.enum.filter (fun p => refTruthy p.2.load_ref)) = l
  have h : ∀ (l : List (ℕ × Deposit)) (m : List (String × ℕ × Deposit)),
      (m.map Prod.fst).Nodup →
      ((l.foldl (fun m p => dictInsert m (p.2.load_ref.getD "") p) m).map
        Prod.fst).Nodup := by
    intro l
    induction l with
    | nil => intro m hm; exact hm
    | cons p rest ih =>
      intro m hm
      simp only [List.foldl_cons]
      exact ih _ (dictInsert_keys_nodup _ _ m hm)
  exact h l [] (by simp)

lemma lookupRef_of_mem :
    ∀ (m : List (String × ℕ × Deposit)) (kv : String × ℕ × Deposit),
      (m.map Prod.fst).Nodup → kv ∈ m → lookupRef m kv.1 = some kv.2 := by
  intro m
  induction m with
  | nil => intro kv _ h; exact absurd h (List.not_mem_nil kv)
  | cons kv' rest ih =>
    intro kv hnd hm
    simp only [List.map_cons, List.nodup_cons] at hnd
    rcases List.mem_cons.mp hm with rfl | hm
    · simp [lookupRef, List.find?_cons]
    · have hne : (kv'.1 == kv.1) = false := by
        rcases Bool.eq_false_or_eq_true (kv'.1 == kv.1) with h | h
        · have : kv'.1 = kv.1 := by simpa using h
          exact absurd (this ▸ List.mem_map_of_mem Prod.fst hm) hnd.1
        · exact h
      simp only [lookupRef, List.find?_cons, hne]
      exact ih kv hnd.2 hm

lemma lastDepositWithRef_mem (deposits : List Deposit) (r : String) (p : ℕ × Deposit)
    (h : lastDepositWithRef deposits r = some p) :
    p ∈ deposits.enum ∧ refTruthy p.2.load_ref = true ∧
      p.2.load_ref.getD "" = r := by
  unfold lastDepositWithRef at h
  rcases foldl_lastwins_mem
      (fun q => refTruthy q.2.load_ref && q.2.load_ref.getD "" == r)
      deposits.enum none p h with ⟨hm, hc⟩ | hax
  · simp only [Bool.and_eq_true, beq_iff_eq] at hc
    exact ⟨hm, hc.1, hc.2⟩
  · cases hax

lemma enum_functional {α : Type} (l : List α) (i : ℕ) (x y : α)
    (hx : (i, x) ∈ l.enum) (hy : (i, y) ∈ l.enum) : x = y := by
  rw [List.mk_mem_enum_iff_getElem?] at hx hy
  rw [hx] at hy
  exact (Option.some.injEq _ _).mp hy

lemma lastDep_self (deposits : List Deposit) (r : String) (p : ℕ × Deposit)
    (h : lastDepositWithRef deposits r = some p) :
    lastDepositWithRef deposits (p.2.load_ref.getD "") = some p := by
  obtain ⟨-, -, hk⟩ := lastDepositWithRef_mem deposits r p h
  rw [hk]
  exact h

lemma matchLoad_conf_cases (deposits : List Deposit)
    (byRef : List (String × ℕ × Deposit)) (matched : List ℕ) (load : Load)
    (p : ℕ × Deposit) (conf : String)
    (h : matchLoad deposits byRef matched load = some (p, conf)) :
    conf = "high" ∨ conf = "medium" ∨ conf = "low" := by
  unfold matchLoad at h
  cases h1 : lookupRef byRef load.load_num with
  | some q =>
    rw [h1] at h
    simp only [Option.some.injEq, Prod.mk.injEq] at h
    exact Or.inl h.2.symm
  | none =>
    rw [h1] at h
    cases h2 : byRef.find? (fun kv =>
        kv.1 != "" && load.load_num != "" &&
          (pyIn kv.1 load.load_num || pyIn load.load_num kv.1)) with
    | some kv =>
      rw [h2] at h
      simp only [Option.some.injEq, Prod.mk.injEq] at h
      exact Or.inr (Or.inl h.2.symm)
    | none =>
      rw [h2] at h
      cases h3 : deposits.enum.find? (fun q =>
          iabs (q.2.amount - load.amount) < 1 && decide (q.1 ∉ matched)) with
      | some q =>
        rw [h3] at h
        simp only [Option.some.injEq, Prod.mk.injEq] at h
        exact Or.inr (Or.inr h.2.symm)
      | none =>
        rw [h3] at h
        cases h

lemma matchLoad_highmed_last (deposits : List Deposit) (matched : List ℕ)
    (load : Load) (p : ℕ × Deposit) (conf : String)
    (h : matchLoad deposits (deposits_by_ref deposits) matched load = some (p, conf))
    (hc : conf = "high" ∨ conf = "medium") :
    lastDepositWithRef deposits (p.2.load_ref.getD "") = some p := by
  unfold matchLoad at h
  cases h1 : lookupRef (deposits_by_ref deposits) load.load_num with
  | some q =>
    rw [h1] at h
    simp only [Option.some.injEq, Prod.mk.injEq] at h
    rw [lookupRef_deposits_by_ref] at h1
    rw [← h.1]
    exact lastDep_self deposits load.load_num q h1
  | none =>
    rw [h1] at h
    cases h2 : (deposits_by_ref deposits).find? (fun kv =>
        kv.1 != "" && load.load_num != "" &&
          (pyIn kv.1 load.load_num || pyIn load.load_num kv.1)) with
    | some kv =>
      rw [h2] at h
      simp only [Option.some.injEq, Prod.mk.injEq] at h
      have hmem := List.mem_of_find?_eq_some h2
      have hlk := lookupRef_of_mem (deposits_by_ref deposits) kv
        (deposits_by_ref_keys_nodup deposits) hmem
      rw [lookupRef_deposits_by_ref] at hlk
      rw [← h.1]
      exact lastDep_self deposits kv.1 kv.2 hlk
    | none =>
      rw [h2] at h
      cases h3 : deposits.enum.find? (fun q =>
          iabs (q.2.amount - load.amount) < 1 && decide (q.1 ∉ matched)) with
      | some q =>
        rw [h3] at h
        simp only [Option.some.injEq, Prod.mk.injEq] at h
        rw [← h.2] at hc
        rcases hc with hc | hc <;> exact absurd hc (by decide)
      | none =>
        rw [h3] at h
        cases h

lemma reconcileLoads_all (deposits : List Deposit)
    (byRef : List (String × ℕ × Deposit)) (P : Reconciliation → Prop)
    (hP : ∀ (matched : List ℕ) (i : ℕ) (l : Load) (p : ℕ × Deposit) (conf : String),
      matchLoad deposits byRef matched l = some (p, conf) →
      P { loadIdx := i, load := l, depositIdx := p.1, deposit := p.2,
          match_confidence := conf }) :
    ∀ (es : List (ℕ × Load)) (recs : List Reconciliation) (unm : List (ℕ × Load)),
      (∀ rec ∈ recs, P rec) →
      ∀ rec ∈ (reconcileLoads deposits byRef es recs unm).1, P rec := by
  intro es
  induction es with
  | nil =>
    intro recs unm hrecs rec hrec
    simp only [reconcileLoads] at hrec
    exact hrecs rec hrec
  | cons x rest ih =>
    intro recs unm hrecs rec hrec
    obtain ⟨i, l⟩ := x
    cases hm : matchLoad deposits byRef (recs.map (fun r => r.depositIdx)) l with
    | some pc =>
      obtain ⟨p, conf⟩ := pc
      simp only [reconcileLoads, hm] at hrec
      refine ih _ _ ?_ rec hrec
      intro r hr
      rcases List.mem_append.mp hr with hr | hr
      · exact hrecs r hr
      · simp only [List.mem_singleton] at hr
        subst hr
        exact hP _ i l p conf hm
    | none =>
      simp only [reconcileLoads, hm] at hrec
      exact ih recs (unm ++ [(i, l)]) hrecs rec hrec

/-- C5 (amended): the load-reference matcher tries three tiers in order and
an earlier tier is never superseded, but the reference tiers resolve
through the deposit dictionary: (i) if some deposit carries exactly the
load's reference, the match is HIGH-confidence and binds the *last* deposit
carrying it, regardless of amount and date; (ii) otherwise, the first
dictionary entry (distinct references in first-appearance order) whose key
contains or is contained in the load reference gives a MEDIUM match bound
to the last deposit carrying that key — not necessarily the first such
deposit in raw deposit order; (iii) otherwise the first not-yet-matched
deposit with the load's amount (within one cent) gives a LOW match;
(iv) otherwise the load is unmatched. -/
theorem C5_tier_cascade (deposits : List Deposit) (matched : List ℕ) (load : Load) :
    (∀ p, lastDepositWithRef deposits load.load_num = some p →
      matchLoad deposits (deposits_by_ref deposits) matched load =
        some (p, "high")) ∧
    (lastDepositWithRef deposits load.load_num = none →
      ∀ kv, (deposits_by_ref deposits).find? (fun kv =>
          kv.1 != "" && load.load_num != "" &&
            (pyIn kv.1 load.load_num || pyIn load.load_num kv.1)) = some kv →
        matchLoad deposits (deposits_by_ref deposits) matched load =
          some (kv.2, "medium") ∧
        lastDepositWithRef deposits kv.1 = some kv.2) ∧
    (lastDepositWithRef deposits load.load_num = none →
      (deposits_by_ref deposits).find? (fun kv =>
          kv.1 != "" && load.load_num != "" &&
            (pyIn kv.1 load.load_num || pyIn load.load_num kv.1)) = none →
      ∀ p, deposits.enum.find? (fun q =>
          iabs (q.2.amount - load.amount) < 1 && decide (q.1 ∉ matched)) = some p →
        matchLoad deposits (deposits_by_ref deposits) matched load =
          some (p, "low")) ∧
    (lastDepositWithRef deposits load.load_num = none →
      (deposits_by_ref deposits).find? (fun kv =>
          kv.1 != "" && load.load_num != "" &&
            (pyIn kv.1 load.load_num || pyIn load.load_num kv.1)) = none →
      deposits.enum.find? (fun q =>
          iabs (q.2.amount - load.amount) < 1 && decide (q.1 ∉ matched)) = none →
      matchLoad deposits (deposits_by_ref deposits) matched load = none) := by
  refine ⟨?_, ?_, ?_, ?_⟩
  · intro p h
    have hlk : lookupRef (deposits_by_ref deposits) load.load_num = some p := by
      rw [lookupRef_deposits_by_ref]; exact h
    simp only [matchLoad, hlk]
  · intro h0 kv hf
    have hlk : lookupRef (deposits_by_ref deposits) load.load_num = none := by
      rw [lookupRef_deposits_by_ref]; exact h0
    constructor
    · simp only [matchLoad, hlk, hf]
    · have hmem := List.mem_of_find?_eq_some hf
      have hlk2 := lookupRef_of_mem (deposits_by_ref deposits) kv
        (deposits_by_ref_keys_nodup deposits) hmem
      rw [lookupRef_deposits_by_ref] at hlk2
      exact hlk2
  · intro h0 h2 p h3
    have hlk : lookupRef (deposits_by_ref deposits) load.load_num = none := by
      rw [lookupRef_deposits_by_ref]; exact h0
    simp only [matchLoad, hlk, h2, h3]
  · intro h0 h2 h3
    have hlk : lookupRef (deposits_by_ref deposits) load.load_num = none := by
      rw [lookupRef_deposits_by_ref]; exact h0
    simp only [matchLoad, hlk, h2, h3]

/-- C10: in the load-reference matcher, a duplicated extracted reference
keeps only the *last* deposit bearing it in the reference dictionary
(`lookupRef ∘ deposits_by_ref = lastDepositWithRef`); every HIGH- or
MEDIUM-confidence match binds its load to the last deposit bearing the
matched deposit's own reference, so an earlier duplicate-reference deposit
can be bound only by the LOW-confidence amount fallback; and a deposit
bound by no reconciliation at all is reported among the unmatched
deposits. -/
theorem C10_duplicate_references (loads : List Load) (payments : List Payment)
    (deposits : List Deposit) :
    (∀ r, lookupRef (deposits_by_ref deposits) r = lastDepositWithRef deposits r) ∧
    (∀ rec ∈ (reconcile_data loads payments deposits).reconciled,
      rec.match_confidence = "high" ∨ rec.match_confidence = "medium" →
      lastDepositWithRef deposits (rec.deposit.load_ref.getD "") =
        some (rec.depositIdx, rec.deposit)) ∧
    (∀ p ∈ deposits.enum, refTruthy p.2.load_ref = true →
      lastDepositWithRef deposits (p.2.load_ref.getD "") ≠ some p →
      ∀ rec ∈ (reconcile_data loads payments deposits).reconciled,
        rec.depositIdx = p.1 → rec.match_confidence = "low") ∧
    (∀ p ∈ deposits.enum,
      (p ∈ (reconcile_data loads payments deposits).unmatched_deposits ↔
        p.1 ∉ (reconcile_data loads payments deposits).reconciled.map
          (fun r => r.depositIdx))) := by
  have hprop : ∀ rec ∈ (reconcile_data loads payments deposits).reconciled,
      (rec.match_confidence = "high" ∨ rec.match_confidence = "medium") →
      lastDepositWithRef deposits (rec.deposit.load_ref.getD "") =
        some (rec.depositIdx, rec.deposit) := by
    simp only [reconcile_data]
    apply reconcileLoads_all deposits (deposits_by_ref deposits)
      (fun rec =>
        (rec.match_confidence = "high" ∨ rec.match_confidence = "medium") →
        lastDepositWithRef deposits (rec.deposit.load_ref.getD "") =
          some (rec.depositIdx, rec.deposit))
    · intro matched i l p conf hm
      dsimp only
      intro hc
      exact matchLoad_highmed_last deposits matched l p conf hm hc
    · intro rec hrec
      exact absurd hrec (List.not_mem_nil rec)
  have hconf : ∀ rec ∈ (reconcile_data loads payments deposits).reconciled,
      rec.match_confidence = "high" ∨ rec.match_confidence = "medium" ∨
        rec.match_confidence = "low" := by
    simp only [reconcile_data]
    apply reconcileLoads_all deposits (deposits_by_ref deposits)
      (fun rec => rec.match_confidence = "high" ∨
        rec.match_confidence = "medium" ∨ rec.match_confidence = "low")
    · intro matched i l p conf hm
      dsimp only
      exact matchLoad_conf_cases deposits (deposits_by_ref deposits) matched l p conf hm
    · intro rec hrec
      exact absurd hrec (List.not_mem_nil rec)
  refine ⟨fun r => lookupRef_deposits_by_ref deposits r, hprop, ?_, ?_⟩
  · intro p hp ht hne rec hrec hidx
    rcases hconf rec hrec with hh | hm | hl
    · exfalso
      have h2 := hprop rec hrec (Or.inl hh)
      rw [hidx] at h2
      have hm2 := (lastDepositWithRef_mem deposits _ _ h2).1
      have hdep : rec.deposit = p.2 := enum_functional deposits p.1 _ _ hm2 hp
      rw [hdep] at h2
      exact hne h2
    · exfalso
      have h2 := hprop rec hrec (Or.inr hm)
      rw [hidx] at h2
      have hm2 := (lastDepositWithRef_mem deposits _ _ h2).1
      have hdep : rec.deposit = p.2 := enum_functional deposits p.1 _ _ hm2 hp
      rw [hdep] at h2
      exact hne h2
    · exact hl
  · intro p hp
    simp only [reconcile_data, List.mem_filter, decide_eq_true_eq, hp, true_and]
